import Mathlib

/-
Verification development for the multi-provider LLM agent (JavaScript
implementation).  The definitions below are a shallow embedding of the
tool sandbox in src/js/tools.js and of the tool-calling orchestration
loop in src/js/agent.js.  JavaScript strings are modelled as lists of
characters, the filesystem as a finite association list from resolved
absolute paths to entries, and the provider adapter / subprocess runner
as explicit functional parameters.  All tool inputs are taken to be
absolute, normalized paths, on which Node's path.resolve is the
identity (the resolve step of each tool is therefore modelled as the
identity function).
-/

namespace Agents

/-- Code-level (JavaScript) strings are modelled as lists of characters. -/
abbrev Str := List Char

/-- Boolean prefix test: `isPrefixB pat s` models JS `s.startsWith(pat)`
applied at the head of `s`. -/
def isPrefixB : Str → Str → Bool
  | [], _ => true
  | _ :: _, [] => false
  | p :: ps, c :: cs => if p = c then isPrefixB ps cs else false

/-- Boolean substring test: `containsB s pat` models JS `s.includes(pat)`. -/
def containsB : Str → Str → Bool
  | [], pat => isPrefixB pat []
  | c :: cs, pat => isPrefixB pat (c :: cs) || containsB cs pat

/-- Character-wise lower-casing, modelling JS `s.toLowerCase()` (adequate
for the ASCII pattern lists used by the command gate). -/
def toLowerStr (s : Str) : Str := s.map Char.toLower

/-- Splitting on a separator character, modelling JS `s.split(sep)`:
`"".split(sep)` yields `[""]`, separators delimit (possibly empty) fields. -/
def splitOnC (sep : Char) : Str → List Str
  | [] => [[]]
  | c :: cs =>
    match splitOnC sep cs with
    | [] => [[]]
    | h :: t => if c = sep then [] :: h :: t else (c :: h) :: t

/-- Joining a list of strings with a separator, modelling `parts.join(sep)`. -/
def joinWith (sep : Str) : List Str → Str
  | [] => []
  | [x] => x
  | x :: y :: t => x ++ sep ++ joinWith sep (y :: t)

/-- Decimal rendering of a number, modelling JS template interpolation of
a non-negative integer. -/
def natStr (n : Nat) : Str := Nat.toDigits 10 n

/-- Result text of a tool is an error iff it starts with the literal
"Error" (every failure branch in src/js/tools.js produces such a text). -/
def isErrorText (s : Str) : Bool := isPrefixB ("Error".toList) s

/-- Entry of the modelled filesystem: a regular file with contents, or a
directory. -/
inductive FsEntry where
  | file (content : Str)
  | dir
deriving DecidableEq

/-- Filesystem: finite map from resolved absolute path to entry,
represented as an association list. -/
abbrev FS := List (Str × FsEntry)

/-- Lookup of a path, modelling `fs.existsSync` / `fs.statSync` /
`fs.readFileSync` access to an entry. -/
def fsLookup : FS → Str → Option FsEntry
  | [], _ => none
  | (q, e) :: rest, p => if q = p then some e else fsLookup rest p

/-- Update-or-insert of a path binding, modelling `fs.writeFileSync`
(overwrite if present, create otherwise). -/
def fsSet : FS → Str → FsEntry → FS
  | [], p, e => [(p, e)]
  | (q, e0) :: rest, p, e => if q = p then (p, e) :: rest else (q, e0) :: fsSet rest p e

/-- Sensitive-path denylist of read_file (src/js/tools.js line 122). -/
def sensitivePatternsRead : List Str :=
  [ ".env".toList, "id_rsa".toList, ".pem".toList, ".key".toList, "credentials".toList]

/-- Sensitive-path denylist of write_file / edit_file (src/js/tools.js
lines 157 and 341). -/
def sensitivePatternsWrite : List Str :=
  [ ".env".toList, ".git/".toList, "id_rsa".toList, ".pem".toList, ".key".toList,
    "credentials".toList]

/-- Denylist test used by read_file: some pattern occurs in the resolved path. -/
def sensitiveHitRead (p : Str) : Bool := sensitivePatternsRead.any (fun pat => containsB p pat)

/-- Denylist test used by write_file and edit_file. -/
def sensitiveHitWrite (p : Str) : Bool := sensitivePatternsWrite.any (fun pat => containsB p pat)

/-- Header of a successful read_file result. -/
def readHeader (filePath : Str) : Str := "Contents of ".toList ++ filePath ++ ":\n\n".toList

/-- Embedding of read_file (src/js/tools.js lines 108-143): existence
check, file-type check, sensitive-path denylist, then contents with an
explicit truncation marker past maxLines lines.  Read-only: the
filesystem is not returned because the function never mutates it. -/
def read_file (fs : FS) (filePath : Str) (maxLines : Nat) : Str :=
  match fsLookup fs filePath with
  | none => "Error: File '".toList ++ filePath ++ "' does not exist.".toList
  | some .dir => "Error: '".toList ++ filePath ++ "' is not a file.".toList
  | some (.file content) =>
    if sensitiveHitRead filePath then
      "Error: Cannot read potentially sensitive file '".toList ++ filePath ++ "'.".toList
    else
      let lines := splitOnC '\n' content
      if maxLines < lines.length then
        readHeader filePath ++ joinWith ['\n'] (lines.take maxLines) ++
          "\n\n... (truncated, showing first ".toList ++ natStr maxLines ++
          " lines of ".toList ++ natStr lines.length ++ " total)".toList
      else readHeader filePath ++ content

/-- Embedding of write_file (src/js/tools.js lines 151-175): sensitive
denylist first, then write (parent-directory creation is transparent in
the path-to-entry filesystem model; writing over an existing directory
fails inside the catch with an EISDIR error text). -/
def write_file (fs : FS) (filePath content : Str) : Str × FS :=
  if sensitiveHitWrite filePath then
    ("Error: Cannot write to potentially sensitive location '".toList ++ filePath ++
      "'.".toList, fs)
  else
    match fsLookup fs filePath with
    | some .dir =>
      ("Error writing file: EISDIR: illegal operation on a directory".toList, fs)
    | _ =>
      ("Successfully wrote ".toList ++ natStr content.length ++
        " characters to ".toList ++ filePath, fsSet fs filePath (.file content))

/-- Workspace-root containment predicate of the planned validation layer
(`_validatePath` in src/SECURITY_ENHANCEMENTS.md, Priority 2): a resolved
path is inside the workspace iff it starts with the resolved root.  Used
here only to state which paths are outside a configured workspace root;
the shipped src/js/tools.js never consults it. -/
def underRoot (root p : Str) : Bool := isPrefixB root p

/-- Substitution semantics of ECMAScript `String.prototype.replace` with a
string (non-regex) search value and a string replacement (GetSubstitution
with an empty capture list): `$$` yields `$`, `$&` the matched text,
`$` followed by a backtick the portion before the match, `$'` the portion
after the match, and any other `$`-sequence is passed through verbatim.
`matched` is the search string, `pre` the part of the subject before the
match, `suf` the part after it. -/
def getSubst (matched pre suf : Str) : Str → Str
  | [] => []
  | c :: rest =>
    if c = '$' then
      match rest with
      | [] => ['$']
      | d :: rest2 =>
        if d = '$' then '$' :: getSubst matched pre suf rest2
        else if d = '&' then matched ++ getSubst matched pre suf rest2
        else if d = Char.ofNat 96 then pre ++ getSubst matched pre suf rest2
        else if d = Char.ofNat 39 then suf ++ getSubst matched pre suf rest2
        else '$' :: getSubst matched pre suf (d :: rest2)
    else c :: getSubst matched pre suf rest

/-- Splitting of a string at the first occurrence of a pattern: returns
the part before the first occurrence and the part after it, or none when
the pattern does not occur. -/
def firstSplit : Str → Str → Option (Str × Str)
  | [], pat => if isPrefixB pat [] then some ([], []) else none
  | c :: cs, pat =>
    if isPrefixB pat (c :: cs) then some ([], (c :: cs).drop pat.length)
    else (firstSplit cs pat).map (fun pr => (c :: pr.1, pr.2))

/-- Embedding of JS `content.replace(oldText, newText)` with string
arguments: replace the first occurrence of `pat`, applying the
`$`-substitution of `getSubst` to the replacement text. -/
def replaceFirst (s pat repl : Str) : Str :=
  match firstSplit s pat with
  | none => s
  | some (pre, suf) => pre ++ getSubst pat pre suf repl ++ suf

/-- Error text of edit_file when the old text does not occur. -/
def notFoundEditText (filePath : Str) : Str :=
  "Error: Text to replace not found in ".toList ++ filePath

/-- Success text of edit_file. -/
def editSuccessText (filePath : Str) : Str := "Successfully edited ".toList ++ filePath

/-- Embedding of edit_file (src/js/tools.js lines 331-364): existence
check, sensitive denylist, read (EISDIR on a directory is converted to an
error text by the surrounding catch), occurrence check, then first-occurrence
replacement written back. -/
def edit_file (fs : FS) (filePath oldText newText : Str) : Str × FS :=
  match fsLookup fs filePath with
  | none => ("Error: File '".toList ++ filePath ++ "' does not exist.".toList, fs)
  | some e =>
    if sensitiveHitWrite filePath then
      ("Error: Cannot edit potentially sensitive file '".toList ++ filePath ++ "'.".toList, fs)
    else
      match e with
      | .dir => ("Error editing file: EISDIR: illegal operation on a directory".toList, fs)
      | .file content =>
        if containsB content oldText then
          (editSuccessText filePath,
            fsSet fs filePath (.file (replaceFirst content oldText newText)))
        else (notFoundEditText filePath, fs)

/-- Error text of delete_file when confirmation is absent or false
(src/js/tools.js line 713). -/
def confirmDeleteText : Str :=
  "Error: Must set confirm=True to delete files. This is a safety measure.".toList

/-- Critical-path denylist of delete_file (src/js/tools.js line 723). -/
def criticalPatternsDelete : List Str :=
  [ ".git".toList, ".env".toList, "id_rsa".toList, ".pem".toList, ".key".toList,
    "credentials".toList]

/-- Denylist test used by delete_file. -/
def criticalHitDelete (p : Str) : Bool := criticalPatternsDelete.any (fun pat => containsB p pat)

/-- Removal of a single file binding, modelling `fs.unlinkSync`. -/
def fsRemoveFile : FS → Str → FS
  | [], _ => []
  | (q, e) :: rest, p =>
    if q = p then fsRemoveFile rest p else (q, e) :: fsRemoveFile rest p

/-- Recursive removal of a directory and everything below it, modelling
`fs.rmSync(p, { recursive: true, force: true })`. -/
def fsRemoveTree : FS → Str → FS
  | [], _ => []
  | (q, e) :: rest, p =>
    if q = p then fsRemoveTree rest p
    else if isPrefixB (p ++ ['/']) q then fsRemoveTree rest p
    else (q, e) :: fsRemoveTree rest p

/-- Embedding of delete_file (src/js/tools.js lines 709-745): confirmation
gate first, then existence, critical-path denylist, root-level depth check
(`resolvedPath.split(path.sep).length <= 2`), then removal. -/
def delete_file (fs : FS) (filePath : Str) (confirm : Bool) : Str × FS :=
  if !confirm then (confirmDeleteText, fs)
  else
    match fsLookup fs filePath with
    | none => ("Error: Path '".toList ++ filePath ++ "' does not exist.".toList, fs)
    | some e =>
      if criticalHitDelete filePath then
        ("Error: Cannot delete sensitive path '".toList ++ filePath ++ "'.".toList, fs)
      else if (splitOnC '/' filePath).length ≤ 2 then
        ("Error: Cannot delete root-level path '".toList ++ filePath ++
          "' for safety.".toList, fs)
      else
        match e with
        | .dir =>
          ("Successfully deleted directory '".toList ++ filePath ++ "'".toList,
            fsRemoveTree fs filePath)
        | .file _ =>
          ("Successfully deleted file '".toList ++ filePath ++ "'".toList,
            fsRemoveFile fs filePath)

/-- Dangerous-substring blacklist of bash_command (src/js/tools.js line 187).
The braces of the fork-bomb pattern are written with hex escapes. -/
def dangerousPatterns : List Str :=
  [ "rm -rf /".toList, "mkfs".toList, "dd if=".toList, ":()\x7b:|:&\x7d;:".toList,
    "fork bomb".toList]

/-- Blacklist gate of bash_command: some dangerous pattern occurs in the
lower-cased command. -/
def bashBlocked (command : Str) : Bool :=
  dangerousPatterns.any (fun pat => containsB (toLowerStr command) pat)

/-- Error text returned by bash_command when the blacklist gate fires. -/
def blockedCommandText : Str :=
  "Error: Command contains potentially dangerous pattern and was blocked.".toList

/-- Outcome delivered by Node's `exec` for a spawned subprocess: either a
resolved stdout/stderr pair, or a rejection carrying the `killed` flag and
an error message (Node rejects with the child killed when the pipe output
exceeds the configured maxBuffer, and with `killed` set on timeout). -/
inductive ExecOutcome where
  | ok (stdout stderr : Str)
  | fail (killed : Bool) (message stderr : Str)
deriving DecidableEq

/-- Embedding of bash_command (src/js/tools.js lines 183-209): blacklist
gate, then the subprocess outcome (a parameter of the invocation, since the
subprocess itself is external) is rendered: stdout/stderr sections on
success, a timeout error text when the child was killed, and a generic
execution error text otherwise.  No branch truncates oversized output. -/
def bash_command (outcome : ExecOutcome) (command : Str) (timeoutSec : Nat) : Str :=
  if bashBlocked command then blockedCommandText
  else
    match outcome with
    | .ok stdout stderr =>
      let output :=
        (if stdout ≠ [] then ["STDOUT:\n".toList ++ stdout] else []) ++
        (if stderr ≠ [] then ["STDERR:\n".toList ++ stderr] else [])
      if 0 < output.length then joinWith ['\n'] output
      else "Command executed with no output.".toList
    | .fail true _ _ =>
      "Error: Command timed out after ".toList ++ natStr timeoutSec ++ " seconds.".toList
    | .fail false message stderr =>
      "Error executing command: ".toList ++ message ++ ['\n'] ++ stderr

/-- Whitespace test modelling the JS regex class `\s` for the characters
relevant to shell commands. -/
def isWsChar (c : Char) : Bool := (c == ' ') || (c == '\t') || (c == '\n') || (c == '\r')

/-- Embedding of JS `s.trim()`. -/
def trimStr (s : Str) : Str := ((s.dropWhile isWsChar).reverse.dropWhile isWsChar).reverse

/-- Accumulator pass splitting a string into maximal runs of
non-whitespace characters. -/
def wordsAux : Str → Str → List Str
  | [], acc => if acc = [] then [] else [acc.reverse]
  | c :: cs, acc =>
    if isWsChar c then
      (if acc = [] then wordsAux cs [] else acc.reverse :: wordsAux cs [])
    else wordsAux cs (c :: acc)

/-- Embedding of JS `s.split(/\s+/)` restricted to trimmed input (its only
use in the source is `command.trim().split(/\s+/)`): the empty string
yields a single empty field, otherwise the whitespace-separated words. -/
def splitWsJS (s : Str) : List Str := if s = [] then [[]] else wordsAux s []

/-- Last element of a list with a default, modelling JS `array.pop()` on a
nonempty split result. -/
def lastD (d : Str) : List Str → Str
  | [] => d
  | [x] => x
  | _ :: y :: t => lastD d (y :: t)

/-- Command whitelist of the planned validation layer (`ALLOWED_COMMANDS`
in src/SECURITY_ENHANCEMENTS.md, Priority 3). -/
def ALLOWED_COMMANDS : List Str :=
  [ "git".toList, "npm".toList, "pip".toList, "python".toList, "python3".toList,
    "node".toList, "pytest".toList, "jest".toList, "ls".toList, "cat".toList,
    "grep".toList, "find".toList, "echo".toList, "pwd".toList, "which".toList,
    "wc".toList, "eslint".toList, "pylint".toList, "flake8".toList, "black".toList,
    "prettier".toList, "make".toList, "cargo".toList, "yarn".toList, "pnpm".toList]

/-- Embedding of the planned whitelist validator (`_validateCommand` in
src/SECURITY_ENHANCEMENTS.md, Priority 3), parametrized by the allow-set:
the command's first token, with any directory prefix stripped, must appear
in the allow-set.  The diagnostic suffix listing the sorted allow-set is
elided from the error text; only the validity flag is used below. -/
def validateCommand (allowedCommands : List Str) (command : Str) : Bool × Str :=
  match splitWsJS (trimStr command) with
  | [] => (false, "Error: Empty command".toList)
  | c0 :: _ =>
    let cmdName := lastD [] (splitOnC '/' c0)
    if cmdName ∈ allowedCommands then (true, [])
    else (false, "Error: Command '".toList ++ cmdName ++ "' not in whitelist.".toList)

/-- Parsed JSON argument value of a tool invocation (string, boolean or
number — the kinds the tool schemas declare). -/
inductive JVal where
  | str (s : Str)
  | bool (b : Bool)
  | num (n : Int)
deriving DecidableEq

/-- Tool invocation as normalized by the provider adapter: id, tool name,
and the parsed arguments object.  JSON.parse of the provider's arguments
string preserves the textual order of (non-index) keys, so the arguments
object is modelled as an ordered list of key/value pairs. -/
structure ToolCall where
  id : Str
  name : Str
  args : List (Str × JVal)
deriving DecidableEq

/-- Conversation message (src/js/agent.js): role, content, the requested
tool calls of an assistant message, and the tool_call_id / tool name of a
tool-result message. -/
structure Message where
  role : Str
  content : Str
  tool_calls : List ToolCall := []
  tool_call_id : Option Str := none
  name : Option Str := none
deriving DecidableEq

/-- Executor of a registered tool, called positionally. -/
abbrev ToolExec := List JVal → Str

/-- Active filtered tool registry (`AVAILABLE_TOOLS` in src/js/agent.js):
tool name to executor. -/
abbrev Registry := List (Str × ToolExec)

/-- Registry lookup, modelling `AVAILABLE_TOOLS[toolName]`. -/
def regLookup : Registry → Str → Option ToolExec
  | [], _ => none
  | (n, f) :: rest, m => if n = m then some f else regLookup rest m

/-- Embedding of `tool.execute(...Object.values(args))` (src/js/agent.js
lines 114-115): the executor receives the argument values positionally in
the enumeration order of the arguments object; the keys are discarded. -/
def dispatch {α : Type} (execute : List JVal → α) (args : List (Str × JVal)) : α :=
  execute (args.map Prod.snd)

/-- Content of the not-found ToolResult for a hallucinated tool name
(src/js/agent.js line 110). -/
def notFoundText (toolName : Str) : Str :=
  "Error: Tool \"".toList ++ toolName ++ "\" not found.".toList

/-- Execution of one tool invocation into its tool-role result message
(the body of the `toolPromises` map, src/js/agent.js lines 96-123): a name
absent from the registry yields a not-found result; otherwise the executor
runs with the argument values in order.  Either way the result carries the
invocation's id. -/
def execToolCall (registry : Registry) (tc : ToolCall) : Message :=
  match regLookup registry tc.name with
  | none =>
    { role := "tool".toList, content := notFoundText tc.name,
      tool_call_id := some tc.id, name := some tc.name }
  | some f =>
    { role := "tool".toList, content := dispatch f tc.args,
      tool_call_id := some tc.id, name := some tc.name }

/-- Results of one round of tool execution: `Promise.all(toolPromises)`
resolves to the results indexed exactly like the requesting
`tool_calls` array, whatever order the promises settle in. -/
def roundResults (registry : Registry) (calls : List ToolCall) : List Message :=
  calls.map (execToolCall registry)

/-- Round bound of the /chat orchestration loop (src/js/agent.js line 65). -/
def MAX_TOOL_CALLS : Nat := 5

/-- Error text of the round-limit-exceeded response (src/js/agent.js
line 144, returned with HTTP status 500). -/
def roundLimitText : Str := "Exceeded maximum number of tool calls.".toList

/-- Loop body of the /chat handler (src/js/agent.js lines 79-142), with
fuel `MAX_TOOL_CALLS - toolCallCount`: ask the provider for a completion;
if it requests tool calls, append the assistant message and the round's
results and continue, counting the round; otherwise the content is final.
Returns the final content (or none when the bound is exhausted) together
with the number of tool-call rounds executed. -/
def chatLoop (provider : List Message → Message) (registry : Registry) :
    Nat → List Message → Option Str × Nat
  | 0, _ => (none, 0)
  | fuel + 1, messages =>
    let rm := provider messages
    if 0 < rm.tool_calls.length then
      let r := chatLoop provider registry fuel
        (messages ++ [rm] ++ roundResults registry rm.tool_calls)
      (r.1, r.2 + 1)
    else (some rm.content, 0)

/-- Outcome of a /chat request: the final response with the updated
history, or the distinct round-limit-exceeded error response. -/
inductive ChatResult where
  | final (response : Str) (updatedHistory : List Message)
  | limitError (error : Str)
deriving DecidableEq

/-- Embedding of the /chat handler (src/js/agent.js lines 63-150): seeds
the transcript with the system prompt, the provided history and the user
message, runs the loop, and on success saves the updated history
(provided history plus the user and final assistant turns). -/
def handleChat (provider : List Message → Message) (registry : Registry)
    (systemPrompt : Str) (providedHistory : List Message) (userMessage : Str) :
    ChatResult × Nat :=
  let messages :=
    { role := "system".toList, content := systemPrompt : Message } ::
      providedHistory ++ [{ role := "user".toList, content := userMessage : Message }]
  match chatLoop provider registry MAX_TOOL_CALLS messages with
  | (none, n) => (.limitError roundLimitText, n)
  | (some responseText, n) =>
    (.final responseText
      (providedHistory ++
        [{ role := "user".toList, content := userMessage : Message },
         { role := "assistant".toList, content := responseText : Message }]), n)

mutual
/-- File tree of the search_and_replace walk: a named file with contents
or a named directory with children. -/
inductive FTree where
  | file (name : Str) (content : Str)
  | dir (name : Str) (children : FList)
/-- List of sibling trees. -/
inductive FList where
  | nil
  | cons (t : FTree) (ts : FList)
end

/-- Directory names skipped by recursive walks (src/js/tools.js line 575). -/
def ignoreDirs : List Str :=
  [ ".git".toList, "__pycache__".toList, "node_modules".toList, ".venv".toList,
    "venv".toList, "dist".toList, "build".toList]

/-- Boolean suffix test, modelling the anchored extension regex. -/
def isSuffixB (pat s : Str) : Bool := isPrefixB pat.reverse s.reverse

/-- Binary extensions skipped by search_and_replace (src/js/tools.js
line 589). -/
def binaryExts : List Str :=
  [ ".pyc".toList, ".so".toList, ".dll".toList, ".exe".toList, ".jpg".toList,
    ".png".toList, ".gif".toList, ".pdf".toList]

/-- Test for a skipped binary extension on the item name. -/
def binaryExt (name : Str) : Bool := binaryExts.any (fun e => isSuffixB e name)

/-- Sensitive path fragment ".env" checked on the full path. -/
def patEnv : Str := ".env".toList

/-- Sensitive path fragment ".key" checked on the full path. -/
def patKey : Str := ".key".toList

/-- Path join, modelling `path.join(dir, item)` for a directory path
without a trailing separator. -/
def pjoin (dir name : Str) : Str := dir ++ ['/'] ++ name

mutual
/-- Embedding of the `processDir` walk of search_and_replace
(src/js/tools.js lines 564-627), parametrized by the regex engine:
`mc content` is `(content.match(regex) || []).length` for the global regex
built from the pattern, and `ra content` is
`content.replace(regex, replacement)`.  For each visited file with a
positive match count the walk records `(fullPath, count)` — the count the
tool prints both as "N match(es)" in dry-run mode and as "N
replacement(s) made" otherwise — and rewrites the file only when dry-run
is off; ignored directories, binary extensions and paths containing
".env" or ".key" are skipped.  Returns the recorded counts and the
resulting tree. -/
def sarTree (mc : Str → Nat) (ra : Str → Str) (dryRun : Bool) (curPath : Str) :
    FTree → List (Str × Nat) × FTree
  | .file name content =>
    let fullPath := pjoin curPath name
    if binaryExt name || containsB fullPath patEnv || containsB fullPath patKey then
      ([], .file name content)
    else
      let m := mc content
      if 0 < m then
        ([(fullPath, m)], if dryRun then .file name content else .file name (ra content))
      else ([], .file name content)
  | .dir name children =>
    if name ∈ ignoreDirs then ([], .dir name children)
    else
      let r := sarList mc ra dryRun (pjoin curPath name) children
      (r.1, .dir name r.2)
def sarList (mc : Str → Nat) (ra : Str → Str) (dryRun : Bool) (curPath : Str) :
    FList → List (Str × Nat) × FList
  | .nil => ([], .nil)
  | .cons t ts =>
    let r1 := sarTree mc ra dryRun curPath t
    let r2 := sarList mc ra dryRun curPath ts
    (r1.1 ++ r2.1, .cons r1.2 r2.2)
end

/-- Embedding of search_and_replace applied to the children of the
resolved, existing search root: the recorded per-file counts and the
resulting tree. -/
def search_and_replace (mc : Str → Nat) (ra : Str → Str) (dryRun : Bool)
    (rootPath : Str) (root : FList) : List (Str × Nat) × FList :=
  sarList mc ra dryRun rootPath root

/-- Concrete example executor: the write_file tool lifted to the
positional calling convention of the dispatcher (file_path first, then
content, matching the declared parameter order of the write_file schema). -/
def execWriteFile (fs : FS) : List JVal → Str × FS
  | [JVal.str p, JVal.str c] => write_file fs p c
  | _ => ( "Error: invalid arguments".toList, fs)

/-- Workspace root of the containment scenario in the spec. -/
def wsRoot : Str := "/tmp/ws".toList

/-- Existing, non-denylisted absolute path outside the workspace root. -/
def etcPasswd : Str := "/etc/passwd".toList

/-- Contents of the file outside the workspace root. -/
def passwdContent : Str := "root:x:0:0".toList

/-- Filesystem holding only the out-of-workspace file. -/
def fsOutside : FS := [(etcPasswd, .file passwdContent)]

/-- Denylisted path (matches the ".env" pattern). -/
def envPath : Str := "/tmp/ws/.env".toList

/-- Filesystem holding the denylisted file. -/
def envFS : FS := [(envPath, .file ( "SECRET=1".toList))]

/-- Sample written content. -/
def xStr : Str := "X".toList

/-- Tool call issued by the always-calling provider stub. -/
def stubCall : ToolCall :=
  { id := "call_1".toList, name := "calculator".toList,
    args := [( "expression".toList, JVal.str ( "1+1".toList))] }

/-- Provider stub whose every response requests one tool call. -/
def stubProvider : List Message → Message :=
  fun _ => { role := "assistant".toList, content := [], tool_calls := [stubCall] }

/-- Empty filtered registry. -/
def emptyRegistry : Registry := []

/-- Sample user message. -/
def hiMsg : Str := "hi".toList

/-- Whitelisted sample command. -/
def gitStatusCmd : Str := "git status".toList

/-- Blacklisted sample command. -/
def rmRfCmd : Str := "rm -rf /".toList

/-- Tool call whose name is absent from the filtered registry. -/
def unknownCall : ToolCall :=
  { id := "call_9".toList, name := "frobnicate".toList, args := [] }

/-- Provider stub requesting the unknown tool. -/
def unknownProvider : List Message → Message :=
  fun _ => { role := "assistant".toList, content := [], tool_calls := [unknownCall] }

/-- Error message Node delivers when a subprocess pipe exceeds maxBuffer. -/
def maxBufferMsg : Str := "stdout maxBuffer length exceeded".toList

/-- Command producing more pipe output than the 1MB buffer limit. -/
def bigOutputCmd : Str := "cat big.txt".toList

/-- Three-line file content for the read_file truncation witness. -/
def threeLine : Str := "one\ntwo\nthree".toList

/-- Path of the three-line file. -/
def logPath : Str := "/ws/log.txt".toList

/-- Filesystem holding the three-line file. -/
def fsLog : FS := [(logPath, .file threeLine)]

/-- Argument key "file_path". -/
def fpKey : Str := "file_path".toList

/-- Argument key "content". -/
def ctKey : Str := "content".toList

/-- Sample path value. -/
def notesPath : Str := "/ws/notes.txt".toList

/-- Sample content value. -/
def helloText : Str := "hello".toList

/-- Arguments object with keys in schema order. -/
def argsFC : List (Str × JVal) := [(fpKey, JVal.str notesPath), (ctKey, JVal.str helloText)]

/-- Same arguments object with the two keys in swapped order. -/
def argsCF : List (Str × JVal) := [(ctKey, JVal.str helloText), (fpKey, JVal.str notesPath)]

/-- Same argument values under renamed keys, original order. -/
def argsRenamed : List (Str × JVal) :=
  [( "fp".toList, JVal.str notesPath), ( "c".toList, JVal.str helloText)]

/-- Editable file path (matches no sensitive pattern). -/
def wsFile : Str := "/ws/a.txt".toList

/-- Contents "abc" of the edited file in the counterexample. -/
def abcContent : Str := "abc".toList

/-- Filesystem for the edit_file counterexample. -/
def fsEdit : FS := [(wsFile, .file abcContent)]

/-- Search text "a". -/
def aStr : Str := "a".toList

/-- Replacement text containing JS substitution patterns. -/
def dollarAmp2 : Str := "$&$&".toList

/-- Contents "xyxy" of the edited file in the witness. -/
def xyxyContent : Str := "xyxy".toList

/-- Filesystem for the edit_file witness. -/
def fsEditW : FS := [(wsFile, .file xyxyContent)]

/-- Search text "y". -/
def yStr : Str := "y".toList

/-- Replacement text "Q" (no substitution pattern). -/
def qStr : Str := "Q".toList

/-- Part of "xyxy" before the first "y". -/
def preW : Str := "x".toList

/-- Part of "xyxy" after the first "y". -/
def sufW : Str := "xy".toList

/-- Every string is a prefix of itself extended by anything. -/
theorem isPrefixB_self_append (s t : Str) : isPrefixB s (s ++ t) = true := by
  induction s with
  | nil => rfl
  | cons c cs ih => simp [isPrefixB, ih]

/-- A prefix of a string is a prefix of any extension of it. -/
theorem isPrefixB_append_of (pat a b : Str) (h : isPrefixB pat a = true) :
    isPrefixB pat (a ++ b) = true := by
  induction pat generalizing a with
  | nil => rfl
  | cons pc pcs ih =>
    cases a with
    | nil => simp [isPrefixB] at h
    | cons ac acs =>
      by_cases hc : pc = ac
      · subst hc
        simp only [isPrefixB, if_pos rfl] at h
        simpa [isPrefixB] using ih acs h
      · simp [isPrefixB, hc] at h

/-- A text that extends a literal starting with "Error" is an error text. -/
theorem isErrorText_of_lit (L rest : Str) (h : isPrefixB ( "Error".toList) L = true) :
    isErrorText (L ++ rest) = true :=
  isPrefixB_append_of _ _ _ h

/-- Whenever the path matches the read denylist, read_file produces an
error text (every branch reachable under that hypothesis is an error). -/
theorem read_file_sensitive_error (fs : FS) (p : Str) (maxLines : Nat)
    (h : sensitiveHitRead p = true) : isErrorText (read_file fs p maxLines) = true := by
  unfold read_file
  split
  · rw [List.append_assoc]
    exact isErrorText_of_lit _ _ (by decide)
  · rw [List.append_assoc]
    exact isErrorText_of_lit _ _ (by decide)
  · rw [if_pos h, List.append_assoc]
    exact isErrorText_of_lit _ _ (by decide)

/-- C1 (amended): the shipped path-guarded tools enforce only the
sensitive-pattern denylist, not workspace-root containment — for every
path matching the denylist, read_file returns an error text, and
write_file returns an error text and leaves the filesystem unchanged
(for any path, existing or not). -/
theorem pathGuard_denylist_only (fs : FS) (p : Str) (maxLines : Nat) (content : Str) :
    (sensitiveHitRead p = true → isErrorText (read_file fs p maxLines) = true) ∧
    (sensitiveHitWrite p = true →
      isErrorText (write_file fs p content).1 = true ∧ (write_file fs p content).2 = fs) := by
  refine ⟨fun h => read_file_sensitive_error fs p maxLines h, fun h => ?_⟩
  unfold write_file
  rw [if_pos h]
  refine ⟨?_, rfl⟩
  rw [List.append_assoc]
  exact isErrorText_of_lit _ _ (by decide)

/-- C1 witness: on the denylisted path "/tmp/ws/.env" both read_file and
write_file reject with an error text and the filesystem is unchanged. -/
theorem pathGuard_denylist_only_witness :
    isErrorText (read_file envFS envPath 500) = true ∧
    isErrorText (write_file envFS envPath xStr).1 = true ∧
    (write_file envFS envPath xStr).2 = envFS :=
  ⟨(pathGuard_denylist_only envFS envPath 500 xStr).1 (by decide),
   ((pathGuard_denylist_only envFS envPath 500 xStr).2 (by decide)).1,
   ((pathGuard_denylist_only envFS envPath 500 xStr).2 (by decide)).2⟩

/-- C1 counterexample: "/etc/passwd" lies outside the workspace root
"/tmp/ws", yet read_file does not reject it — it performs the read and
returns the file's contents, not a validation-error text. -/
theorem outside_workspace_read_not_rejected :
    underRoot wsRoot etcPasswd = false ∧
    read_file fsOutside etcPasswd 500 = readHeader etcPasswd ++ passwdContent ∧
    isErrorText (read_file fsOutside etcPasswd 500) = false :=
  ⟨by decide, by decide, by decide⟩

/-- C2: a delete_file invocation whose confirm argument is false (the
value an absent argument defaults to) returns the safety-error text and
leaves the filesystem untouched, for every filesystem and every path —
valid, invalid, existing or not. -/
theorem delete_without_confirm_noop (fs : FS) (p : Str) :
    delete_file fs p false = (confirmDeleteText, fs) := rfl

/-- Against a provider whose every response requests tool calls, the loop
burns exactly its fuel, one round per unit, and ends in the limit error. -/
theorem chatLoop_always_tools (provider : List Message → Message) (registry : Registry)
    (hp : ∀ ms, 0 < (provider ms).tool_calls.length) :
    ∀ (fuel : Nat) (msgs : List Message),
      chatLoop provider registry fuel msgs = (none, fuel) := by
  intro fuel
  induction fuel with
  | zero => intro msgs; rfl
  | succ n ih =>
    intro msgs
    unfold chatLoop
    rw [if_pos (hp msgs), ih]

/-- C3: for every provider adapter stub whose every response requests at
least one tool call, the /chat handler terminates after exactly
MAX_TOOL_CALLS = 5 tool-call rounds and returns the distinct
round-limit-exceeded error response. -/
theorem chat_round_limit (provider : List Message → Message) (registry : Registry)
    (systemPrompt : Str) (providedHistory : List Message) (userMessage : Str)
    (hp : ∀ ms, 0 < (provider ms).tool_calls.length) :
    handleChat provider registry systemPrompt providedHistory userMessage =
      (ChatResult.limitError roundLimitText, MAX_TOOL_CALLS) := by
  simp only [handleChat]
  rw [chatLoop_always_tools provider registry hp]

/-- C3 witness: the concrete always-calling stub hits the limit after
exactly 5 rounds. -/
theorem chat_round_limit_witness :
    handleChat stubProvider emptyRegistry [] [] hiMsg =
      (ChatResult.limitError roundLimitText, MAX_TOOL_CALLS) :=
  chat_round_limit stubProvider emptyRegistry [] [] hiMsg (fun _ => Nat.one_pos)

/-- The result message of one executed tool invocation always carries the
invocation's own id, whether or not the tool was found. -/
theorem execToolCall_id (registry : Registry) (tc : ToolCall) :
    (execToolCall registry tc).tool_call_id = some tc.id := by
  unfold execToolCall
  cases regLookup registry tc.name <;> rfl

/-- C4: a round with several tool invocations produces exactly one
ToolResult per invocation, and position by position each result's
tool_call_id is the id of the invocation that produced it — `Promise.all`
indexes the settled results by request position, so this pairing is
independent of the order in which the concurrent executions complete. -/
theorem toolResult_id_pairing (registry : Registry) (calls : List ToolCall) :
    (roundResults registry calls).length = calls.length ∧
    (roundResults registry calls).map Message.tool_call_id =
      calls.map (fun tc => some tc.id) := by
  constructor
  · simp [roundResults]
  · simp [roundResults, List.map_map, Function.comp_def, execToolCall_id]

/-- C7: every invocation of a round yields a result (the round is not
aborted); an invocation whose tool name is absent from the filtered
registry yields the not-found error ToolResult tagged with its own id;
and the loop then proceeds to the next round with the results appended. -/
theorem unknown_tool_round_continues (registry : Registry) (calls : List ToolCall) :
    (roundResults registry calls).length = calls.length ∧
    (∀ (i : Nat) (tc : ToolCall), calls[i]? = some tc →
      regLookup registry tc.name = none →
      (roundResults registry calls)[i]? =
        some { role := "tool".toList, content := notFoundText tc.name,
               tool_call_id := some tc.id, name := some tc.name }) ∧
    (∀ (provider : List Message → Message) (fuel : Nat) (messages : List Message),
      (provider messages).tool_calls = calls → 0 < calls.length →
      chatLoop provider registry (fuel + 1) messages =
        ((chatLoop provider registry fuel
            (messages ++ [provider messages] ++ roundResults registry calls)).1,
         (chatLoop provider registry fuel
            (messages ++ [provider messages] ++ roundResults registry calls)).2 + 1)) := by
  refine ⟨by simp [roundResults], fun i tc hi hn => ?_, fun provider fuel messages hc hlen => ?_⟩
  · simp [roundResults, List.getElem?_map, hi, execToolCall, hn]
  · conv_lhs => simp only [chatLoop]
    rw [hc, if_pos hlen]

/-- C7 witness: a hallucinated tool name against the empty registry gets
a not-found result with its id, and the loop continues for one more
round. -/
theorem unknown_tool_round_continues_witness :
    (roundResults emptyRegistry [unknownCall]).length = 1 ∧
    (roundResults emptyRegistry [unknownCall])[0]? =
      some { role := "tool".toList, content := notFoundText unknownCall.name,
             tool_call_id := some unknownCall.id, name := some unknownCall.name } ∧
    chatLoop unknownProvider emptyRegistry 1 [] =
      ((chatLoop unknownProvider emptyRegistry 0
          ([] ++ [unknownProvider []] ++ roundResults emptyRegistry [unknownCall])).1,
       (chatLoop unknownProvider emptyRegistry 0
          ([] ++ [unknownProvider []] ++ roundResults emptyRegistry [unknownCall])).2 + 1) :=
  ⟨(unknown_tool_round_continues emptyRegistry [unknownCall]).1,
   (unknown_tool_round_continues emptyRegistry [unknownCall]).2.1 0 unknownCall (by decide) rfl,
   (unknown_tool_round_continues emptyRegistry [unknownCall]).2.2 unknownProvider 0 [] rfl
     (by decide)⟩

/-- C5: the whitelist validator accepts "git status" whenever git is in
the allow-set; the blacklist gate of the shipped bash_command does not
block "git status"; and "rm -rf /" is rejected with the blocked-pattern
error text before any execution, for every subprocess outcome — the
blacklist-mode gate consults no whitelist, so no whitelist configuration
can change this. -/
theorem command_gating :
    (∀ allowedCommands : List Str, ( "git".toList) ∈ allowedCommands →
      (validateCommand allowedCommands gitStatusCmd).1 = true) ∧
    bashBlocked gitStatusCmd = false ∧
    (∀ (outcome : ExecOutcome) (timeoutSec : Nat),
      bash_command outcome rmRfCmd timeoutSec = blockedCommandText) := by
  refine ⟨fun allowedCommands h => ?_, by decide, fun outcome timeoutSec => ?_⟩
  · have h1 : splitWsJS (trimStr gitStatusCmd) = [ "git".toList, "status".toList] := by
      decide
    unfold validateCommand
    rw [h1]
    have h2 : lastD [] (splitOnC '/' ( "git".toList)) = "git".toList := by decide
    simp only [h2]
    rw [if_pos h]
  · have hb : bashBlocked rmRfCmd = true := by decide
    unfold bash_command
    rw [if_pos hb]

/-- C5 witness: with the documented allow-set, "git status" validates and
"rm -rf /" is blocked. -/
theorem command_gating_witness :
    (validateCommand ALLOWED_COMMANDS gitStatusCmd).1 = true ∧
    bash_command (ExecOutcome.ok [] []) rmRfCmd 30 = blockedCommandText :=
  ⟨command_gating.1 ALLOWED_COMMANDS (by decide),
   command_gating.2.2 (ExecOutcome.ok [] []) 30⟩

mutual
/-- With dry-run on, the walk returns the tree unchanged (file case of
the mutual induction). -/
theorem sarTree_dry_id (mc : Str → Nat) (ra : Str → Str) (curPath : Str) :
    (t : FTree) → (sarTree mc ra true curPath t).2 = t
  | .file n c => by
    simp only [sarTree]
    split
    · rfl
    · split <;> rfl
  | .dir n ch => by
    simp only [sarTree]
    split
    · rfl
    · simp [sarList_dry_id mc ra (pjoin curPath n) ch]
/-- With dry-run on, the walk returns the sibling list unchanged. -/
theorem sarList_dry_id (mc : Str → Nat) (ra : Str → Str) (curPath : Str) :
    (l : FList) → (sarList mc ra true curPath l).2 = l
  | .nil => rfl
  | .cons t ts => by
    simp [sarList, sarTree_dry_id mc ra curPath t, sarList_dry_id mc ra curPath ts]
end

mutual
/-- The per-file counts recorded by a dry-run walk coincide with those of
the mutating walk on the same tree (file case). -/
theorem sarTree_counts (mc : Str → Nat) (ra : Str → Str) (curPath : Str) :
    (t : FTree) → (sarTree mc ra true curPath t).1 = (sarTree mc ra false curPath t).1
  | .file n c => by
    simp only [sarTree]
    split
    · rfl
    · split <;> rfl
  | .dir n ch => by
    simp only [sarTree]
    split
    · rfl
    · simp [sarList_counts mc ra (pjoin curPath n) ch]
/-- The per-file counts recorded by a dry-run walk coincide with those of
the mutating walk (sibling-list case). -/
theorem sarList_counts (mc : Str → Nat) (ra : Str → Str) (curPath : Str) :
    (l : FList) → (sarList mc ra true curPath l).1 = (sarList mc ra false curPath l).1
  | .nil => rfl
  | .cons t ts => by
    simp [sarList, sarTree_counts mc ra curPath t, sarList_counts mc ra curPath ts]
end

/-- C6: with dry_run enabled, search_and_replace leaves every file of the
searched tree unchanged, and the per-file match counts it records are
exactly the replacement counts the same invocation with dry_run disabled
records on the identical unmodified tree — for every pattern (match
counter), replacement (rewriter), root path and tree. -/
theorem dry_run_no_mutation_and_counts (mc : Str → Nat) (ra : Str → Str)
    (rootPath : Str) (root : FList) :
    (search_and_replace mc ra true rootPath root).2 = root ∧
    (search_and_replace mc ra true rootPath root).1 =
      (search_and_replace mc ra false rootPath root).1 :=
  ⟨sarList_dry_id mc ra rootPath root, sarList_counts mc ra rootPath root⟩

/-- C8 (amended): read_file past max_lines returns the first max_lines
lines together with the explicit "(truncated, showing first N lines of M
total)" marker carrying both counts; bash_command, by contrast, converts
every rejected subprocess (in particular one whose pipe output exceeded
the maxBuffer limit) into an error text — it has no truncation path. -/
theorem output_caps :
    (∀ (fs : FS) (p : Str) (maxLines : Nat) (content : Str),
      fsLookup fs p = some (.file content) → sensitiveHitRead p = false →
      maxLines < (splitOnC '\n' content).length →
      read_file fs p maxLines =
        readHeader p ++ joinWith ['\n'] ((splitOnC '\n' content).take maxLines) ++
          "\n\n... (truncated, showing first ".toList ++ natStr maxLines ++
          " lines of ".toList ++ natStr (splitOnC '\n' content).length ++ " total)".toList ∧
      ((splitOnC '\n' content).take maxLines).length = maxLines) ∧
    (∀ (killed : Bool) (message errOut cmd : Str) (timeoutSec : Nat),
      bashBlocked cmd = false →
      isErrorText (bash_command (.fail killed message errOut) cmd timeoutSec) = true) := by
  constructor
  · intro fs p maxLines content hf hs hlt
    constructor
    · simp [read_file, hf, hs, hlt]
    · rw [List.length_take]
      exact Nat.min_eq_left (Nat.le_of_lt hlt)
  · intro killed message errOut cmd timeoutSec hcmd
    cases killed with
    | false =>
      have hb : bash_command (.fail false message errOut) cmd timeoutSec =
          "Error executing command: ".toList ++ message ++ ['\n'] ++ errOut := by
        simp [bash_command, hcmd]
      rw [hb, List.append_assoc, List.append_assoc]
      exact isErrorText_of_lit _ _ (by decide)
    | true =>
      have hb : bash_command (.fail true message errOut) cmd timeoutSec =
          "Error: Command timed out after ".toList ++ natStr timeoutSec ++
            " seconds.".toList := by
        simp [bash_command, hcmd]
      rw [hb, List.append_assoc]
      exact isErrorText_of_lit _ _ (by decide)

/-- C8 witness: the three-line file read with max_lines 2 yields the
marked truncation, and a buffer-exceeded subprocess yields an error text. -/
theorem output_caps_witness :
    (read_file fsLog logPath 2 =
        readHeader logPath ++ joinWith ['\n'] ((splitOnC '\n' threeLine).take 2) ++
          "\n\n... (truncated, showing first ".toList ++ natStr 2 ++
          " lines of ".toList ++ natStr (splitOnC '\n' threeLine).length ++ " total)".toList ∧
      ((splitOnC '\n' threeLine).take 2).length = 2) ∧
    isErrorText (bash_command (.fail true maxBufferMsg []) bigOutputCmd 30) = true :=
  ⟨output_caps.1 fsLog logPath 2 threeLine (by decide) (by decide) (by decide),
   output_caps.2 true maxBufferMsg [] bigOutputCmd 30 (by decide)⟩

/-- C8 counterexample: when the subprocess pipe exceeds the 1MB buffer
limit, Node kills the child and rejects, and bash_command returns a
timeout-worded bare error — not the truncated output, and with no
"(truncated, N of M)" marker at all. -/
theorem buffer_overflow_not_truncated :
    bash_command (.fail true maxBufferMsg []) bigOutputCmd 30 =
      "Error: Command timed out after 30 seconds.".toList ∧
    containsB (bash_command (.fail true maxBufferMsg []) bigOutputCmd 30)
      ( "truncated".toList) = false :=
  ⟨by decide, by decide⟩

/-- C9: the dispatcher hands the executor the argument values
positionally in the enumeration order of the arguments object — renaming
the keys while keeping the values and their order cannot change any
call's result, whereas swapping the order of two differently-named keys
can (concretely, write_file invoked with content before file_path writes
a different file). -/
theorem positional_dispatch :
    (∀ (α : Type) (execute : List JVal → α) (a b : List (Str × JVal)),
      a.map Prod.snd = b.map Prod.snd → dispatch execute a = dispatch execute b) ∧
    dispatch (execWriteFile []) argsFC ≠ dispatch (execWriteFile []) argsCF := by
  refine ⟨fun α execute a b h => ?_, by decide⟩
  unfold dispatch
  rw [h]

/-- C9 witness: renaming the keys of the write_file arguments (same
values, same order) leaves the dispatched result unchanged. -/
theorem positional_dispatch_witness :
    dispatch (execWriteFile []) argsFC = dispatch (execWriteFile []) argsRenamed :=
  positional_dispatch.1 (Str × FS) (execWriteFile []) argsFC argsRenamed (by decide)

/-- A successful prefix test decomposes the string. -/
theorem isPrefixB_drop (pat : Str) :
    ∀ s : Str, isPrefixB pat s = true → s = pat ++ s.drop pat.length := by
  induction pat with
  | nil => intro s _; simp
  | cons pc pcs ih =>
    intro s h
    cases s with
    | nil => simp [isPrefixB] at h
    | cons c cs =>
      by_cases hc : pc = c
      · subst hc
        simp only [isPrefixB, if_pos rfl] at h
        simpa using ih cs h
      · simp [isPrefixB, hc] at h

/-- A successful firstSplit decomposes the string around the pattern. -/
theorem firstSplit_decomp : ∀ (s pat pre suf : Str),
    firstSplit s pat = some (pre, suf) → s = pre ++ pat ++ suf := by
  intro s
  induction s with
  | nil =>
    intro pat pre suf h
    unfold firstSplit at h
    split at h
    · rename_i hp
      simp only [Option.some.injEq, Prod.mk.injEq] at h
      obtain ⟨h1, h2⟩ := h
      subst h1; subst h2
      cases pat with
      | nil => rfl
      | cons x xs => simp [isPrefixB] at hp
    · exact absurd h (by simp)
  | cons c cs ih =>
    intro pat pre suf h
    unfold firstSplit at h
    split at h
    · rename_i hp
      simp only [Option.some.injEq, Prod.mk.injEq] at h
      obtain ⟨h1, h2⟩ := h
      subst h1; subst h2
      simpa using isPrefixB_drop pat (c :: cs) hp
    · rename_i hp
      cases hfs : firstSplit cs pat with
      | none => rw [hfs] at h; simp at h
      | some pr =>
        obtain ⟨pr1, pr2⟩ := pr
        rw [hfs] at h
        simp only [Option.map_some', Option.some.injEq, Prod.mk.injEq] at h
        obtain ⟨h1, h2⟩ := h
        subst h1; subst h2
        have hd := ih pat pr1 pr2 hfs
        simpa [List.cons_append] using congrArg (List.cons c) hd

/-- The split returned by firstSplit is at the first occurrence: its
prefix is no longer than the prefix of any other decomposition. -/
theorem firstSplit_minimal : ∀ (s pat pre suf : Str),
    firstSplit s pat = some (pre, suf) →
    ∀ p1 s1, s = p1 ++ pat ++ s1 → pre.length ≤ p1.length := by
  intro s
  induction s with
  | nil =>
    intro pat pre suf h p1 s1 _
    unfold firstSplit at h
    split at h
    · simp only [Option.some.injEq, Prod.mk.injEq] at h
      obtain ⟨h1, _⟩ := h
      subst h1
      exact Nat.zero_le _
    · exact absurd h (by simp)
  | cons c cs ih =>
    intro pat pre suf h p1 s1 he
    unfold firstSplit at h
    split at h
    · simp only [Option.some.injEq, Prod.mk.injEq] at h
      obtain ⟨h1, _⟩ := h
      subst h1
      exact Nat.zero_le _
    · rename_i hp
      cases hfs : firstSplit cs pat with
      | none => rw [hfs] at h; simp at h
      | some pr =>
        obtain ⟨pr1, pr2⟩ := pr
        rw [hfs] at h
        simp only [Option.map_some', Option.some.injEq, Prod.mk.injEq] at h
        obtain ⟨h1, _⟩ := h
        subst h1
        cases p1 with
        | nil =>
          rw [List.nil_append] at he
          exact absurd (he ▸ isPrefixB_self_append pat s1) hp
        | cons d p1t =>
          simp only [List.cons_append, List.cons.injEq] at he
          obtain ⟨_, he2⟩ := he
          have := ih pat pr1 pr2 hfs p1t s1 (by simpa [List.append_assoc] using he2)
          simpa [List.length_cons] using Nat.succ_le_succ this

/-- The occurrence test of edit_file agrees with firstSplit. -/
theorem containsB_iff_firstSplit : ∀ s pat : Str,
    containsB s pat = (firstSplit s pat).isSome := by
  intro s
  induction s with
  | nil =>
    intro pat
    unfold containsB firstSplit
    by_cases hp : isPrefixB pat [] = true
    · simp [hp]
    · rw [Bool.not_eq_true] at hp
      simp [hp]
  | cons c cs ih =>
    intro pat
    unfold containsB firstSplit
    by_cases hp : isPrefixB pat (c :: cs) = true
    · simp [hp]
    · rw [Bool.not_eq_true] at hp
      simp [hp, ih pat]

/-- A replacement text containing no dollar sign substitutes as itself. -/
theorem getSubst_no_dollar (matched pre suf : Str) :
    ∀ repl : Str, (∀ c ∈ repl, c ≠ '$') → getSubst matched pre suf repl = repl := by
  intro repl
  induction repl with
  | nil => intro _; rfl
  | cons c rest ih =>
    intro h
    have hc : ¬ c = '$' := h c (List.mem_cons_self c rest)
    unfold getSubst
    rw [if_neg hc, ih (fun d hd => h d (List.mem_cons_of_mem c hd))]

/-- C10 (amended): on an existing non-sensitive file, edit_file returns
an error and leaves the filesystem unchanged when old_text does not
occur; when it occurs, the file is rewritten with exactly the first
occurrence (the decomposition with the shortest possible prefix)
replaced by the JS dollar-substitution of new_text — which is new_text
itself whenever new_text contains no dollar sign — and the rest of the
contents, including every later occurrence, kept intact. -/
theorem edit_file_first_occurrence (fs : FS) (p oldText newText content : Str)
    (hf : fsLookup fs p = some (.file content)) (hs : sensitiveHitWrite p = false) :
    (containsB content oldText = false →
      edit_file fs p oldText newText = (notFoundEditText p, fs)) ∧
    (∀ pre suf, firstSplit content oldText = some (pre, suf) →
      content = pre ++ oldText ++ suf ∧
      (∀ p1 s1, content = p1 ++ oldText ++ s1 → pre.length ≤ p1.length) ∧
      edit_file fs p oldText newText =
        (editSuccessText p,
          fsSet fs p (.file (pre ++ getSubst oldText pre suf newText ++ suf)))) ∧
    ((∀ c ∈ newText, c ≠ '$') →
      ∀ pre suf : Str, getSubst oldText pre suf newText = newText) := by
  refine ⟨fun hno => ?_, fun pre suf hsp => ?_, fun hnd pre suf => ?_⟩
  · simp [edit_file, hf, hs, hno]
  · have hct : containsB content oldText = true := by
      rw [containsB_iff_firstSplit content oldText, hsp]
      rfl
    exact ⟨firstSplit_decomp content oldText pre suf hsp,
      firstSplit_minimal content oldText pre suf hsp,
      by simp [edit_file, hf, hs, hct, replaceFirst, hsp]⟩
  · exact getSubst_no_dollar oldText pre suf newText hnd

/-- C10 witness: editing "xyxy" replacing the first "y" by "Q" rewrites
the file to the decomposition around the first occurrence. -/
theorem edit_file_first_occurrence_witness :
    edit_file fsEditW wsFile yStr qStr =
      (editSuccessText wsFile,
        fsSet fsEditW wsFile (.file (preW ++ getSubst yStr preW sufW qStr ++ sufW))) :=
  ((edit_file_first_occurrence fsEditW wsFile yStr qStr xyxyContent (by decide)
      (by decide)).2.1 preW sufW (by decide)).2.2

/-- C10 counterexample: editing "abc" with old_text "a" and new_text
"$&$&" stores "aabc" — the JS dollar-substitution of new_text — and not
"$&$&bc", the contents the claim's literal replacement would give. -/
theorem edit_file_dollar_substitution :
    fsLookup (edit_file fsEdit wsFile aStr dollarAmp2).2 wsFile =
      some (.file ( "aabc".toList)) ∧
    ( "aabc".toList : Str) ≠ "$&$&bc".toList :=
  ⟨by decide, by decide⟩

end Agents
